import Mathlib

/-!
# Verification of the Jackal Memory client core

A shallow embedding of `client.py`: the key-resolution logic
(`_encryption_key`), the AES-256-GCM envelope codec (`_encrypt` /
`_decrypt`, including faithful models of `base64`, `bytes.fromhex`,
`bytes.hex`, UTF-8 text codecs, and the AES-GCM construction itself),
and the command layer (`cmd_keygen`, `cmd_save`, `cmd_load`,
`cmd_usage`) as state transformers over an explicit environment /
file-system state, with an I/O event trace.

Python values are embedded as follows: `bytes` becomes a list of
naturals each below 256; `str` becomes a list of Unicode code points;
a raised exception becomes `Except.error`; `os.urandom` output and the
HTTP response become explicit parameters.
-/

namespace Jackal

/-- A Python `bytes` value: a list of byte values (each `< 256`). -/
abbrev Bytes := List Nat

/-- A Python `str` value: a list of Unicode code points. -/
abbrev Str := List Nat

/-- All entries of a byte list are genuine byte values. -/
def Bounded (b : Bytes) : Prop := ∀ x ∈ b, x < 256

instance : DecidablePred Bounded := fun b =>
  inferInstanceAs (Decidable (∀ x ∈ b, x < 256))

/-- The Python exceptions the client can raise, by class. -/
inductive PyErr where
  /-- `ValueError` (from `bytes.fromhex` on malformed hex, or from the
  `AESGCM` constructor on a key whose length is not 16/24/32 bytes). -/
  | valueError
  /-- `binascii.Error` from `base64.b64decode`. -/
  | binasciiError
  /-- `cryptography.exceptions.InvalidTag` from `AESGCM.decrypt`. -/
  | invalidTag
  /-- `UnicodeDecodeError` from `bytes.decode()`. -/
  | unicodeDecodeError
  /-- `UnicodeEncodeError` from `str.encode()` (lone surrogates). -/
  | unicodeEncodeError
deriving DecidableEq

/-! ## ASCII whitespace and `str.strip` -/

/-- ASCII whitespace, the subset of Python's whitespace relevant to hex
key strings (tab, LF, VT, FF, CR, space). -/
def isSpaceChar (c : Nat) : Bool := c == 32 || (9 ≤ c && c ≤ 13)

/-- Python `str.strip()`: remove leading and trailing whitespace. -/
def pyStrip (s : Str) : Str :=
  ((s.dropWhile isSpaceChar).reverse.dropWhile isSpaceChar).reverse

/-! ## `bytes.hex()` and `bytes.fromhex` -/

/-- Lowercase hex digit for a value `< 16` (as a code point). -/
def hexChar (n : Nat) : Nat := if n < 10 then 48 + n else 87 + n

/-- Python `bytes.hex()`: lowercase hexadecimal rendering. -/
def bytesHex (b : Bytes) : Str :=
  b.foldr (fun x s => hexChar (x / 16) :: hexChar (x % 16) :: s) []

/-- Value of a hex digit code point (upper or lower case). -/
def hexDigit? (c : Nat) : Option Nat :=
  if 48 ≤ c ∧ c ≤ 57 then some (c - 48)
  else if 97 ≤ c ∧ c ≤ 102 then some (c - 87)
  else if 65 ≤ c ∧ c ≤ 70 then some (c - 55)
  else none

/-- Parser core of `bytes.fromhex`: ASCII whitespace is skipped between
bytes; each byte is two adjacent hex digits; anything else fails. -/
def fromhexAux : Str → Option Bytes
  | [] => some []
  | c :: cs =>
    if isSpaceChar c then fromhexAux cs
    else
      match hexDigit? c, cs with
      | some h, d :: cs' =>
        match hexDigit? d with
        | some l => (fromhexAux cs').map (fun bs => (16 * h + l) :: bs)
        | none => none
      | _, _ => none

/-- Python `bytes.fromhex`: malformed hex raises `ValueError`. -/
def fromhex (s : Str) : Except PyErr Bytes :=
  match fromhexAux s with
  | some b => .ok b
  | none => .error .valueError

/-! ## Standard base64 (`base64.b64encode` / `base64.b64decode`) -/

/-- Standard (non-URL-safe) base64 alphabet, as a code point. -/
def b64Char (n : Nat) : Nat :=
  if n < 26 then 65 + n
  else if n < 52 then 71 + n
  else if n < 62 then n - 4
  else if n = 62 then 43
  else 47

/-- Index of a code point in the standard base64 alphabet. -/
def b64Val? (c : Nat) : Option Nat :=
  if 65 ≤ c ∧ c ≤ 90 then some (c - 65)
  else if 97 ≤ c ∧ c ≤ 122 then some (c - 71)
  else if 48 ≤ c ∧ c ≤ 57 then some (c + 4)
  else if c = 43 then some 62
  else if c = 47 then some 63
  else none

/-- `base64.b64encode` (standard alphabet, padded with `=`). -/
def b64encode : Bytes → Str
  | a :: b :: c :: rest =>
    b64Char (a / 4) :: b64Char (a % 4 * 16 + b / 16) ::
      b64Char (b % 16 * 4 + c / 64) :: b64Char (c % 64) :: b64encode rest
  | [a, b] => [b64Char (a / 4), b64Char (a % 4 * 16 + b / 16), b64Char (b % 16 * 4), 61]
  | [a] => [b64Char (a / 4), b64Char (a % 4 * 16), 61, 61]
  | [] => []

/-- Decoder core: groups of four alphabet characters, with `=` padding
allowed only at the very end; a leftover partial group fails. -/
def b64decodeAux : Str → Option Bytes
  | [] => some []
  | s0 :: s1 :: s2 :: s3 :: rest =>
    match b64Val? s0, b64Val? s1 with
    | some a, some b =>
      if s2 = 61 then
        if s3 = 61 ∧ rest = [] then some [a * 4 + b / 16] else none
      else
        match b64Val? s2 with
        | some c =>
          if s3 = 61 then
            if rest = [] then some [a * 4 + b / 16, b % 16 * 16 + c / 4] else none
          else
            match b64Val? s3 with
            | some d =>
              (b64decodeAux rest).map
                (fun bs => (a * 4 + b / 16) :: (b % 16 * 16 + c / 4) :: (c % 4 * 64 + d) :: bs)
            | none => none
        | none => none
    | _, _ => none
  | _ => none

/-- Characters `b64decode` keeps in non-validating mode: the alphabet
and the padding character `=`. -/
def b64Keep (c : Nat) : Bool := (b64Val? c).isSome || c == 61

/-- `base64.b64decode` with `validate=False` (the client's call):
characters outside the alphabet (and `=`) are discarded first; a
malformed remainder raises `binascii.Error`. -/
def b64decode (s : Str) : Except PyErr Bytes :=
  match b64decodeAux (s.filter b64Keep) with
  | some b => .ok b
  | none => .error .binasciiError

/-! ## UTF-8 (`str.encode()` / `bytes.decode()`) -/

/-- A Unicode scalar value: a code point that is not a surrogate.
Exactly these code points are UTF-8-encodable. -/
def ValidScalar (c : Nat) : Prop := c < 0x110000 ∧ ¬(0xD800 ≤ c ∧ c ≤ 0xDFFF)

instance : DecidablePred ValidScalar := fun c =>
  inferInstanceAs (Decidable (c < 0x110000 ∧ ¬(0xD800 ≤ c ∧ c ≤ 0xDFFF)))

/-- UTF-8 encoding of one code point (1 to 4 bytes). -/
def utf8EncodeChar (c : Nat) : Bytes :=
  if c < 0x80 then [c]
  else if c < 0x800 then [0xC0 + c / 64, 0x80 + c % 64]
  else if c < 0x10000 then [0xE0 + c / 4096, 0x80 + c / 64 % 64, 0x80 + c % 64]
  else [0xF0 + c / 262144, 0x80 + c / 4096 % 64, 0x80 + c / 64 % 64, 0x80 + c % 64]

/-- UTF-8 encoding of a code point sequence. -/
def utf8Encode (s : Str) : Bytes := s.flatMap utf8EncodeChar

/-- Python `str.encode()` (strict): lone surrogates raise
`UnicodeEncodeError`; every other Python string encodes. -/
def strEncode (s : Str) : Except PyErr Bytes :=
  if s.all (fun c => decide (ValidScalar c)) then .ok (utf8Encode s)
  else .error .unicodeEncodeError

/-- A UTF-8 continuation byte (`10xxxxxx`). -/
def isCont (b : Nat) : Bool := 0x80 ≤ b && b < 0xC0

/-- Strict UTF-8 decoder core with explicit fuel (any fuel of at least
the input length behaves identically): rejects overlong forms,
surrogates, out-of-range code points, and truncated or stray
sequences. -/
def utf8DecodeFuel : Nat → Bytes → Option Str
  | _, [] => some []
  | 0, _ :: _ => none
  | fuel + 1, b0 :: rest =>
    if b0 < 0x80 then (utf8DecodeFuel fuel rest).map (b0 :: ·)
    else if b0 < 0xC2 then none
    else if b0 < 0xE0 then
      let b1 := rest.getD 0 0
      if 1 ≤ rest.length ∧ isCont b1 = true then
        (utf8DecodeFuel fuel (rest.drop 1)).map (((b0 - 0xC0) * 64 + (b1 - 0x80)) :: ·)
      else none
    else if b0 < 0xF0 then
      let b1 := rest.getD 0 0
      let b2 := rest.getD 1 0
      let c := (b0 - 0xE0) * 4096 + (b1 - 0x80) * 64 + (b2 - 0x80)
      if 2 ≤ rest.length ∧ isCont b1 = true ∧ isCont b2 = true ∧ 0x800 ≤ c ∧ ValidScalar c then
        (utf8DecodeFuel fuel (rest.drop 2)).map (c :: ·)
      else none
    else if b0 < 0xF5 then
      let b1 := rest.getD 0 0
      let b2 := rest.getD 1 0
      let b3 := rest.getD 2 0
      let c := (b0 - 0xF0) * 262144 + (b1 - 0x80) * 4096 + (b2 - 0x80) * 64 + (b3 - 0x80)
      if 3 ≤ rest.length ∧ isCont b1 = true ∧ isCont b2 = true ∧ isCont b3 = true ∧
          0x10000 ≤ c ∧ c < 0x110000 then
        (utf8DecodeFuel fuel (rest.drop 3)).map (c :: ·)
      else none
    else none

/-- Strict UTF-8 decoder (each step consumes at least one byte, so the
input length is enough fuel). -/
def utf8DecodeAux (b : Bytes) : Option Str := utf8DecodeFuel b.length b

/-- Python `bytes.decode()` (strict UTF-8): invalid data raises
`UnicodeDecodeError`. -/
def bytesDecode (b : Bytes) : Except PyErr Str :=
  match utf8DecodeAux b with
  | some s => .ok s
  | none => .error .unicodeDecodeError

/-! ## AES-256 block cipher (FIPS 197), byte-list state -/

/-- The AES S-box (FIPS 197, Fig. 7). -/
def sbox : List Nat := [
  0x63, 0x7c, 0x77, 0x7b, 0xf2, 0x6b, 0x6f, 0xc5, 0x30, 0x01, 0x67, 0x2b, 0xfe, 0xd7, 0xab, 0x76,
  0xca, 0x82, 0xc9, 0x7d, 0xfa, 0x59, 0x47, 0xf0, 0xad, 0xd4, 0xa2, 0xaf, 0x9c, 0xa4, 0x72, 0xc0,
  0xb7, 0xfd, 0x93, 0x26, 0x36, 0x3f, 0xf7, 0xcc, 0x34, 0xa5, 0xe5, 0xf1, 0x71, 0xd8, 0x31, 0x15,
  0x04, 0xc7, 0x23, 0xc3, 0x18, 0x96, 0x05, 0x9a, 0x07, 0x12, 0x80, 0xe2, 0xeb, 0x27, 0xb2, 0x75,
  0x09, 0x83, 0x2c, 0x1a, 0x1b, 0x6e, 0x5a, 0xa0, 0x52, 0x3b, 0xd6, 0xb3, 0x29, 0xe3, 0x2f, 0x84,
  0x53, 0xd1, 0x00, 0xed, 0x20, 0xfc, 0xb1, 0x5b, 0x6a, 0xcb, 0xbe, 0x39, 0x4a, 0x4c, 0x58, 0xcf,
  0xd0, 0xef, 0xaa, 0xfb, 0x43, 0x4d, 0x33, 0x85, 0x45, 0xf9, 0x02, 0x7f, 0x50, 0x3c, 0x9f, 0xa8,
  0x51, 0xa3, 0x40, 0x8f, 0x92, 0x9d, 0x38, 0xf5, 0xbc, 0xb6, 0xda, 0x21, 0x10, 0xff, 0xf3, 0xd2,
  0xcd, 0x0c, 0x13, 0xec, 0x5f, 0x97, 0x44, 0x17, 0xc4, 0xa7, 0x7e, 0x3d, 0x64, 0x5d, 0x19, 0x73,
  0x60, 0x81, 0x4f, 0xdc, 0x22, 0x2a, 0x90, 0x88, 0x46, 0xee, 0xb8, 0x14, 0xde, 0x5e, 0x0b, 0xdb,
  0xe0, 0x32, 0x3a, 0x0a, 0x49, 0x06, 0x24, 0x5c, 0xc2, 0xd3, 0xac, 0x62, 0x91, 0x95, 0xe4, 0x79,
  0xe7, 0xc8, 0x37, 0x6d, 0x8d, 0xd5, 0x4e, 0xa9, 0x6c, 0x56, 0xf4, 0xea, 0x65, 0x7a, 0xae, 0x08,
  0xba, 0x78, 0x25, 0x2e, 0x1c, 0xa6, 0xb4, 0xc6, 0xe8, 0xdd, 0x74, 0x1f, 0x4b, 0xbd, 0x8b, 0x8a,
  0x70, 0x3e, 0xb5, 0x66, 0x48, 0x03, 0xf6, 0x0e, 0x61, 0x35, 0x57, 0xb9, 0x86, 0xc1, 0x1d, 0x9e,
  0xe1, 0xf8, 0x98, 0x11, 0x69, 0xd9, 0x8e, 0x94, 0x9b, 0x1e, 0x87, 0xe9, 0xce, 0x55, 0x28, 0xdf,
  0x8c, 0xa1, 0x89, 0x0d, 0xbf, 0xe6, 0x42, 0x68, 0x41, 0x99, 0x2d, 0x0f, 0xb0, 0x54, 0xbb, 0x16]

/-- S-box lookup. -/
def sboxAt (x : Nat) : Nat := sbox.getD x 0

/-- Round constants for the AES-256 key schedule. -/
def rcon : List Nat := [0x01, 0x02, 0x04, 0x08, 0x10, 0x20, 0x40]

/-- Byte-wise xor of two equal-length byte lists. -/
def xorBytes (a b : Bytes) : Bytes := List.zipWith Nat.xor a b

/-- Apply the S-box to each byte of a key-schedule word. -/
def subWord (w : Bytes) : Bytes := w.map sboxAt

/-- Rotate a key-schedule word left by one byte. -/
def rotWord (w : Bytes) : Bytes := w.drop 1 ++ w.take 1

/-- AES-256 key schedule: the first `8 + j` four-byte words. -/
def expandWords (key : Bytes) : Nat → List Bytes
  | 0 => (List.range 8).map (fun i => (key.drop (4 * i)).take 4)
  | j + 1 =>
    let ws := expandWords key j
    let i := j + 8
    let prev := ws.getD (i - 1) []
    let temp :=
      if i % 8 = 0 then xorBytes (subWord (rotWord prev)) [rcon.getD (i / 8 - 1) 0, 0, 0, 0]
      else if i % 8 = 4 then subWord prev
      else prev
    ws ++ [xorBytes (ws.getD (i - 8) []) temp]

/-- All 60 words of the AES-256 key schedule. -/
def expandKey (key : Bytes) : List Bytes := expandWords key 52

/-- Round key `r` (16 bytes) from the expanded key schedule. -/
def roundKey (ws : List Bytes) (r : Nat) : Bytes :=
  ((ws.drop (4 * r)).take 4).flatten

/-- AddRoundKey, written index-wise so the state stays 16 bytes. -/
def addRoundKey (s k : Bytes) : Bytes :=
  (List.range 16).map (fun i => Nat.xor (s.getD i 0) (k.getD i 0))

/-- SubBytes. -/
def subBytesOp (s : Bytes) : Bytes := s.map sboxAt

/-- ShiftRows on the column-major 16-byte state: output byte
`r + 4*c` is input byte `r + 4*((c + r) mod 4)`. -/
def shiftRowsOp (s : Bytes) : Bytes :=
  (List.range 16).map (fun i => s.getD (i % 4 + 4 * ((i / 4 + i % 4) % 4)) 0)

/-- Multiplication by `x` in GF(2^8) modulo `x^8 + x^4 + x^3 + x + 1`. -/
def xtime (x : Nat) : Nat := if x < 0x80 then 2 * x else Nat.xor (2 * x) 0x11B

/-- Multiplication by 3 in GF(2^8). -/
def gf3 (x : Nat) : Nat := Nat.xor (xtime x) x

/-- MixColumns, index-wise over the column-major state. -/
def mixColumnsOp (s : Bytes) : Bytes :=
  (List.range 16).map (fun i =>
    let c := i / 4
    let a0 := s.getD (4 * c) 0
    let a1 := s.getD (4 * c + 1) 0
    let a2 := s.getD (4 * c + 2) 0
    let a3 := s.getD (4 * c + 3) 0
    if i % 4 = 0 then Nat.xor (Nat.xor (xtime a0) (gf3 a1)) (Nat.xor a2 a3)
    else if i % 4 = 1 then Nat.xor (Nat.xor a0 (xtime a1)) (Nat.xor (gf3 a2) a3)
    else if i % 4 = 2 then Nat.xor (Nat.xor a0 a1) (Nat.xor (xtime a2) (gf3 a3))
    else Nat.xor (Nat.xor (gf3 a0) a1) (Nat.xor a2 (xtime a3)))

/-- AES-256 encryption of one 16-byte block (14 rounds). -/
def aesEncryptBlock (key block : Bytes) : Bytes :=
  let ws := expandKey key
  let s0 := addRoundKey block (roundKey ws 0)
  let s :=
    (List.range 13).foldl
      (fun s r => addRoundKey (mixColumnsOp (shiftRowsOp (subBytesOp s))) (roundKey ws (r + 1)))
      s0
  addRoundKey (shiftRowsOp (subBytesOp s)) (roundKey ws 14)

/-! ## GCM mode (NIST SP 800-38D), 12-byte nonce, no associated data -/

/-- Big-endian 4-byte rendering of a 32-bit counter. -/
def be32 (n : Nat) : Bytes := [n / 2 ^ 24 % 256, n / 2 ^ 16 % 256, n / 2 ^ 8 % 256, n % 256]

/-- Big-endian 8-byte rendering of a 64-bit length. -/
def be64 (n : Nat) : Bytes :=
  (List.range 8).map (fun i => n / 2 ^ (8 * (7 - i)) % 256)

/-- Big-endian value of a byte list. -/
def beNat (b : Bytes) : Nat := b.foldl (fun a x => a * 256 + x) 0

/-- Big-endian 16-byte rendering of a 128-bit value. -/
def natToBlock (n : Nat) : Bytes :=
  (List.range 16).map (fun i => n / 2 ^ (8 * (15 - i)) % 256)

/-- Counter block `i` for a 12-byte nonce: `nonce ‖ be32 (1 + i)`. -/
def gcmCounter (nonce : Bytes) (i : Nat) : Bytes := nonce ++ be32 ((1 + i) % 2 ^ 32)

/-- One shift step of the GCM GF(2^128) multiplication. -/
def gfStep (v : Nat) : Nat :=
  if v % 2 = 1 then Nat.xor (v / 2) 0xE1000000000000000000000000000000 else v / 2

/-- Multiplication in GF(2^128) with the GCM reduction polynomial,
processing the bits of `x` from the most significant end. -/
def gfMul (x y : Nat) : Nat :=
  ((List.range 128).foldl
    (fun zv i => (if x.testBit (127 - i) then Nat.xor zv.1 zv.2 else zv.1, gfStep zv.2))
    ((0 : Nat), y)).1

/-- GHASH folding of the first `k` 16-byte blocks of `data` into the
accumulator (block `j` is `data[16j .. 16j+15]`). -/
def ghashUpto (h : Nat) (data : Bytes) : Nat → Nat
  | 0 => 0
  | k + 1 => gfMul (Nat.xor (ghashUpto h data k) (beNat ((data.drop (16 * k)).take 16))) h

/-- Zero-pad a byte string to a whole number of 16-byte blocks. -/
def padBlocks (b : Bytes) : Bytes := b ++ List.replicate ((16 - b.length % 16) % 16) 0

/-- Keystream blocks `E(K, CB_1), …, E(K, CB_k)` concatenated. -/
def ksBlocks (key nonce : Bytes) : Nat → Bytes
  | 0 => []
  | k + 1 => ksBlocks key nonce k ++ aesEncryptBlock key (gcmCounter nonce (k + 1))

/-- The first `n` bytes of the GCM keystream. -/
def gcmKeystream (key nonce : Bytes) (n : Nat) : Bytes :=
  (ksBlocks key nonce ((n + 15) / 16)).take n

/-- The GCM authentication tag over ciphertext `ct` (no associated
data): `E(K, J0) ⊕ GHASH_H(pad(ct) ‖ len64(0) ‖ len64(8·|ct|))`. -/
def gcmTag (key nonce ct : Bytes) : Bytes :=
  let h := beNat (aesEncryptBlock key (List.replicate 16 0))
  let data := padBlocks ct ++ be64 0 ++ be64 (8 * ct.length)
  let s := ghashUpto h data (data.length / 16)
  xorBytes (aesEncryptBlock key (gcmCounter nonce 0)) (natToBlock s)

/-- `AESGCM.encrypt(nonce, pt, None)`: ciphertext followed by the
16-byte authentication tag. -/
def aesgcmEncrypt (key nonce pt : Bytes) : Bytes :=
  let ct := xorBytes pt (gcmKeystream key nonce pt.length)
  ct ++ gcmTag key nonce ct

/-- `AESGCM.decrypt(nonce, data, None)`: splits off the trailing
16-byte tag, recomputes it over the ciphertext, and raises
`InvalidTag` unless it matches. -/
def aesgcmDecrypt (key nonce data : Bytes) : Except PyErr Bytes :=
  if data.length < 16 then .error .invalidTag
  else
    let ct := data.take (data.length - 16)
    let tag := data.drop (data.length - 16)
    if gcmTag key nonce ct = tag then
      .ok (xorBytes ct (gcmKeystream key nonce ct.length))
    else .error .invalidTag

/-! ## The client (`client.py`)

Environment variables and the key file become explicit state; the
bytes `os.urandom` would produce become explicit parameters; each
operation also returns the trace of file-system and network I/O it
performed, in order. -/

/-- The process environment: the two variables the client reads. -/
structure Env where
  /-- `JACKAL_MEMORY_ENCRYPTION_KEY`, if set. -/
  encryptionKey : Option Str
  /-- `JACKAL_MEMORY_API_KEY`, if set. -/
  apiKey : Option Str
deriving DecidableEq

/-- The file-system state the client touches: the content of
`~/.config/jackal-memory/key`, or `none` if the file does not exist. -/
structure Fs where
  /-- Content of the key file, when it exists. -/
  keyFile : Option Str
deriving DecidableEq

/-- An observable I/O action of one client invocation. -/
inductive Event where
  /-- `_KEY_FILE.read_text()` -/
  | keyFileRead
  /-- `_KEY_FILE.write_text(...)` -/
  | keyFileWrite
  /-- An HTTP request is issued to the service. -/
  | networkCall
deriving DecidableEq

/-- `_encryption_key()` (client.py lines 37–65): explicit env key if
non-empty after strip, else the key file if it exists, else generate
32 random bytes, persist their hex to the key file, and return them.
`rand` is what `os.urandom(32)` would return. -/
def _encryption_key (env : Env) (fs : Fs) (rand : Bytes) :
    Except PyErr Bytes × Fs × List Event :=
  let key_hex := pyStrip (env.encryptionKey.getD [])
  if key_hex ≠ [] then (fromhex key_hex, fs, [])
  else
    match fs.keyFile with
    | some content => (fromhex (pyStrip content), fs, [.keyFileRead])
    | none =>
      let key_hex := bytesHex rand
      (fromhex key_hex, { keyFile := some key_hex }, [.keyFileWrite])

/-- The `AESGCM(key)` constructor: `ValueError` unless the key is
16, 24, or 32 bytes. -/
def aesgcmKeyOk (key : Bytes) : Bool :=
  key.length == 16 || key.length == 24 || key.length == 32

/-- The codec core of `_encrypt` (client.py lines 68–74), after key
resolution: UTF-8-encode the plaintext, AES-256-GCM-encrypt it under
the fresh `nonce`, and base64 the 12-byte nonce followed by the
ciphertext-with-tag. -/
def encryptCore (key nonce : Bytes) (plaintext : Str) : Except PyErr Str := do
  if aesgcmKeyOk key then
    let pt ← strEncode plaintext
    .ok (b64encode (nonce ++ aesgcmEncrypt key nonce pt))
  else .error .valueError

/-- The codec core of `_decrypt` (client.py lines 77–83), after key
resolution: base64-decode, split the first 12 bytes as nonce,
AES-256-GCM-decrypt the remainder, and UTF-8-decode the result.
Every failure (bad base64, bad key length, authentication failure,
non-UTF-8 plaintext) propagates as a raised exception. -/
def decryptCore (key : Bytes) (ciphertext_b64 : Str) : Except PyErr Str := do
  let data ← b64decode ciphertext_b64
  if aesgcmKeyOk key then
    let pt ← aesgcmDecrypt key (data.take 12) (data.drop 12)
    bytesDecode pt
  else .error .valueError

/-- `_encrypt` with key resolution, as called by `cmd_save`. -/
def _encrypt (env : Env) (fs : Fs) (randKey nonce : Bytes) (plaintext : Str) :
    Except PyErr Str × Fs × List Event :=
  match _encryption_key env fs randKey with
  | (.error e, fs', ev) => (.error e, fs', ev)
  | (.ok key, fs', ev) => (encryptCore key nonce plaintext, fs', ev)

/-- `_decrypt` with key resolution, as called by `cmd_load`. -/
def _decrypt (env : Env) (fs : Fs) (randKey : Bytes) (ciphertext_b64 : Str) :
    Except PyErr Str × Fs × List Event :=
  match _encryption_key env fs randKey with
  | (.error e, fs', ev) => (.error e, fs', ev)
  | (.ok key, fs', ev) => (decryptCore key ciphertext_b64, fs', ev)

/-- `_headers()` (client.py lines 88–93): `none` models the
`sys.exit(1)` taken when `JACKAL_MEMORY_API_KEY` is unset or empty
(no stripping is applied there). -/
def _headers (env : Env) : Option Str :=
  let key := env.apiKey.getD []
  if key = [] then none else some key

/-- An HTTP response, as far as the client inspects it. -/
structure Response where
  /-- `resp.status_code` -/
  status : Nat
  /-- the `content` field of `resp.json()` -/
  content : Str
deriving DecidableEq

/-- `resp.ok`: status below 400. -/
def respOk (r : Response) : Bool := r.status < 400

/-- `resp.raise_for_status()` raises exactly for 4xx and 5xx. -/
def raisesForStatus (r : Response) : Bool := 400 ≤ r.status && r.status < 600

/-- Outcome of `cmd_save`, up to the point the request is issued. -/
inductive SaveResult where
  /-- an uncaught Python exception ended the process early -/
  | raised (e : PyErr)
  /-- missing bearer credential: error printed, `sys.exit(1)` -/
  | configExit
  /-- the request was sent with this encrypted payload -/
  | sent (payload : Str)
deriving DecidableEq

/-- `cmd_save` (client.py lines 106–122) up to issuing the request:
the payload is encrypted (resolving — possibly generating and
persisting — the key) before `_headers()` checks the credential. -/
def cmd_save (env : Env) (fs : Fs) (randKey nonce : Bytes) (content : Str) :
    SaveResult × Fs × List Event :=
  match _encrypt env fs randKey nonce content with
  | (.error e, fs', ev) => (.raised e, fs', ev)
  | (.ok payload, fs', ev) =>
    match _headers env with
    | none => (.configExit, fs', ev)
    | some _ => (.sent payload, fs', ev ++ [.networkCall])

/-- Outcome of `cmd_load`. -/
inductive LoadResult where
  /-- missing bearer credential: `sys.exit(1)` before any request -/
  | configExit
  /-- HTTP 404: message printed to stderr, `sys.exit(1)` -/
  | notFound
  /-- other non-2xx/3xx status: `raise_for_status()` -/
  | httpError (status : Nat)
  /-- an uncaught Python exception while decrypting -/
  | raised (e : PyErr)
  /-- decrypted plaintext printed to stdout -/
  | output (plaintext : Str)
deriving DecidableEq

/-- `cmd_load` (client.py lines 125–136): credential check, one GET,
404 handling, `raise_for_status`, then `_decrypt` of the returned
content. `resp` is the service's response to the single request. -/
def cmd_load (env : Env) (fs : Fs) (randKey : Bytes) (resp : Response) :
    LoadResult × Fs × List Event :=
  match _headers env with
  | none => (.configExit, fs, [])
  | some _ =>
    if resp.status = 404 then (.notFound, fs, [.networkCall])
    else if ¬respOk resp ∧ raisesForStatus resp then
      (.httpError resp.status, fs, [.networkCall])
    else
      match _decrypt env fs randKey resp.content with
      | (.error e, fs', ev) => (.raised e, fs', .networkCall :: ev)
      | (.ok pt, fs', ev) => (.output pt, fs', .networkCall :: ev)

/-- Outcome of `cmd_usage`. -/
inductive UsageResult where
  /-- missing bearer credential: `sys.exit(1)` before any request -/
  | configExit
  /-- the usage request was issued -/
  | sent
deriving DecidableEq

/-- `cmd_usage` (client.py lines 139–146): credential check, then one
GET; it never touches the encryption key or the key file. -/
def cmd_usage (env : Env) (fs : Fs) : UsageResult × Fs × List Event :=
  match _headers env with
  | none => (.configExit, fs, [])
  | some _ => (.sent, fs, [.networkCall])

/-- `cmd_keygen` (client.py lines 96–103): shows the active key,
generating (and persisting) one if needed. -/
def cmd_keygen (env : Env) (fs : Fs) (rand : Bytes) :
    Except PyErr Bytes × Fs × List Event :=
  _encryption_key env fs rand

/-! ## Byte-bound lemmas -/

theorem xor_lt_256 {a b : Nat} (ha : a < 256) (hb : b < 256) : Nat.xor a b < 256 :=
  Nat.xor_lt_two_pow (n := 8) ha hb

theorem getD_lt_256 {l : List Nat} (h : Bounded l) (i : Nat) : l.getD i 0 < 256 := by
  rcases Nat.lt_or_ge i l.length with hi | hi
  · rw [List.getD_eq_getElem l 0 hi]; exact h _ (List.getElem_mem hi)
  · rw [List.getD_eq_default l 0 hi]; omega

theorem bounded_append {a b : Bytes} (ha : Bounded a) (hb : Bounded b) :
    Bounded (a ++ b) := by
  intro x hx
  rcases List.mem_append.mp hx with h | h
  · exact ha x h
  · exact hb x h

theorem bounded_take {a : Bytes} (ha : Bounded a) (n : Nat) : Bounded (a.take n) :=
  fun x hx => ha x (List.mem_of_mem_take hx)

theorem bounded_drop {a : Bytes} (ha : Bounded a) (n : Nat) : Bounded (a.drop n) :=
  fun x hx => ha x (List.mem_of_mem_drop hx)

set_option maxRecDepth 4000 in
theorem sbox_bounded : Bounded sbox := by decide

theorem sboxAt_lt (x : Nat) : sboxAt x < 256 := getD_lt_256 sbox_bounded x

theorem bounded_subBytes (s : Bytes) : Bounded (s.map sboxAt) := by
  intro x hx
  obtain ⟨y, -, rfl⟩ := List.mem_map.mp hx
  exact sboxAt_lt y

set_option maxRecDepth 4000 in
theorem xtime_lt : ∀ x < 256, xtime x < 256 := by decide

set_option maxRecDepth 4000 in
theorem gf3_lt : ∀ x < 256, gf3 x < 256 := by decide

theorem bounded_xorBytes {a b : Bytes} (ha : Bounded a) (hb : Bounded b) :
    Bounded (xorBytes a b) := by
  induction a generalizing b with
  | nil => intro x hx; simp [xorBytes] at hx
  | cons x a ih =>
    cases b with
    | nil => intro y hy; simp [xorBytes] at hy
    | cons y b =>
      intro z hz
      simp only [xorBytes, List.zipWith_cons_cons, List.mem_cons] at hz
      rcases hz with rfl | hz
      · exact xor_lt_256 (ha x (by simp)) (hb y (by simp))
      · exact ih (fun u hu => ha u (by simp [hu])) (fun u hu => hb u (by simp [hu])) z hz

/-! ## Hex round-trip -/

theorem isSpaceChar_hexChar (n : Nat) : isSpaceChar (hexChar n) = false := by
  unfold hexChar isSpaceChar
  split <;> simp <;> omega

theorem hexDigit?_hexChar : ∀ n < 16, hexDigit? (hexChar n) = some n := by decide

theorem fromhexAux_bytesHex {b : Bytes} (hb : Bounded b) :
    fromhexAux (bytesHex b) = some b := by
  induction b with
  | nil => rfl
  | cons x b ih =>
    have hx : x < 256 := hb x (by simp)
    have hb' : Bounded b := fun y hy => hb y (by simp [hy])
    have h1 : x / 16 < 16 := by omega
    have h2 : x % 16 < 16 := by omega
    simp only [bytesHex, List.foldr_cons]
    rw [show (List.foldr (fun x s => hexChar (x / 16) :: hexChar (x % 16) :: s) [] b) = bytesHex b from rfl]
    unfold fromhexAux
    rw [isSpaceChar_hexChar]
    simp only [Bool.false_eq_true, if_false, hexDigit?_hexChar _ h1, hexDigit?_hexChar _ h2, ih hb']
    simp only [Option.map_some']
    have hxx : 16 * (x / 16) + x % 16 = x := by omega
    rw [hxx]

theorem bytesHex_not_space {b : Bytes} {c : Nat} (hc : c ∈ bytesHex b) :
    isSpaceChar c = false := by
  induction b with
  | nil => simp [bytesHex] at hc
  | cons x b ih =>
    simp only [bytesHex, List.foldr_cons, List.mem_cons] at hc
    rcases hc with rfl | rfl | hc
    · exact isSpaceChar_hexChar _
    · exact isSpaceChar_hexChar _
    · exact ih hc

theorem dropWhile_eq_self_of_none {p : Nat → Bool} {l : List Nat}
    (h : ∀ x ∈ l, p x = false) : l.dropWhile p = l := by
  cases l with
  | nil => rfl
  | cons x l => rw [List.dropWhile_cons_of_neg (by simp [h x (by simp)])]

theorem pyStrip_of_no_space {s : Str} (h : ∀ c ∈ s, isSpaceChar c = false) :
    pyStrip s = s := by
  unfold pyStrip
  rw [dropWhile_eq_self_of_none h,
      dropWhile_eq_self_of_none (fun x hx => h x (List.mem_reverse.mp hx)),
      List.reverse_reverse]

theorem pyStrip_bytesHex (b : Bytes) : pyStrip (bytesHex b) = bytesHex b :=
  pyStrip_of_no_space (fun _ hc => bytesHex_not_space hc)

theorem fromhex_bytesHex {b : Bytes} (hb : Bounded b) : fromhex (bytesHex b) = .ok b := by
  unfold fromhex
  rw [fromhexAux_bytesHex hb]

theorem bytesHex_ne_nil {b : Bytes} (hb : b ≠ []) : bytesHex b ≠ [] := by
  cases b with
  | nil => simp at hb
  | cons x b => simp [bytesHex]

/-! ## Base64 round-trip -/

set_option maxRecDepth 4000 in
theorem b64Val?_b64Char : ∀ n < 64, b64Val? (b64Char n) = some n := by decide

set_option maxRecDepth 4000 in
theorem b64Char_ne_pad : ∀ n < 64, b64Char n ≠ 61 := by decide

theorem b64Keep_b64Char {n : Nat} (h : n < 64) : b64Keep (b64Char n) = true := by
  simp [b64Keep, b64Val?_b64Char n h]

theorem filter_b64encode {b : Bytes} (hb : Bounded b) :
    (b64encode b).filter b64Keep = b64encode b := by
  induction b using b64encode.induct with
  | case1 a x c rest ih =>
    have ha : a < 256 := hb a (by simp)
    have hx : x < 256 := hb x (by simp)
    have hc : c < 256 := hb c (by simp)
    have ihr := ih (fun y hy => hb y (by simp [hy]))
    simp only [b64encode, List.filter_cons,
      b64Keep_b64Char (show a / 4 < 64 by omega),
      b64Keep_b64Char (show a % 4 * 16 + x / 16 < 64 by omega),
      b64Keep_b64Char (show x % 16 * 4 + c / 64 < 64 by omega),
      b64Keep_b64Char (show c % 64 < 64 by omega), if_true, ihr]
  | case2 a x =>
    have ha : a < 256 := hb a (by simp)
    have hx : x < 256 := hb x (by simp)
    simp only [b64encode, List.filter_cons,
      b64Keep_b64Char (show a / 4 < 64 by omega),
      b64Keep_b64Char (show a % 4 * 16 + x / 16 < 64 by omega),
      b64Keep_b64Char (show x % 16 * 4 < 64 by omega), if_true]
    rfl
  | case3 a =>
    have ha : a < 256 := hb a (by simp)
    simp only [b64encode, List.filter_cons,
      b64Keep_b64Char (show a / 4 < 64 by omega),
      b64Keep_b64Char (show a % 4 * 16 < 64 by omega), if_true]
    rfl
  | case4 => rfl

theorem b64decodeAux_b64encode {b : Bytes} (hb : Bounded b) :
    b64decodeAux (b64encode b) = some b := by
  induction b using b64encode.induct with
  | case1 a x c rest ih =>
    have ha : a < 256 := hb a (by simp)
    have hx : x < 256 := hb x (by simp)
    have hc : c < 256 := hb c (by simp)
    have ihr := ih (fun y hy => hb y (by simp [hy]))
    have e1 : a / 4 * 4 + (a % 4 * 16 + x / 16) / 16 = a := by omega
    have e2 : (a % 4 * 16 + x / 16) % 16 * 16 + (x % 16 * 4 + c / 64) / 4 = x := by omega
    have e3 : (x % 16 * 4 + c / 64) % 4 * 64 + c % 64 = c := by omega
    simp only [b64encode, b64decodeAux,
      b64Val?_b64Char _ (show a / 4 < 64 by omega),
      b64Val?_b64Char _ (show a % 4 * 16 + x / 16 < 64 by omega),
      b64Val?_b64Char _ (show x % 16 * 4 + c / 64 < 64 by omega),
      b64Val?_b64Char _ (show c % 64 < 64 by omega),
      if_neg (b64Char_ne_pad _ (show x % 16 * 4 + c / 64 < 64 by omega)),
      if_neg (b64Char_ne_pad _ (show c % 64 < 64 by omega)),
      ihr, Option.map_some', e1, e2, e3]
  | case2 a x =>
    have ha : a < 256 := hb a (by simp)
    have hx : x < 256 := hb x (by simp)
    have e1 : a / 4 * 4 + (a % 4 * 16 + x / 16) / 16 = a := by omega
    have e2 : (a % 4 * 16 + x / 16) % 16 * 16 + x % 16 * 4 / 4 = x := by omega
    simp only [b64encode, b64decodeAux,
      b64Val?_b64Char _ (show a / 4 < 64 by omega),
      b64Val?_b64Char _ (show a % 4 * 16 + x / 16 < 64 by omega),
      b64Val?_b64Char _ (show x % 16 * 4 < 64 by omega),
      if_neg (b64Char_ne_pad _ (show x % 16 * 4 < 64 by omega)),
      if_pos rfl, e1, e2]
    simp
  | case3 a =>
    have ha : a < 256 := hb a (by simp)
    have e1 : a / 4 * 4 + a % 4 * 16 / 16 = a := by omega
    simp only [b64encode, b64decodeAux,
      b64Val?_b64Char _ (show a / 4 < 64 by omega),
      b64Val?_b64Char _ (show a % 4 * 16 < 64 by omega),
      if_pos rfl, e1]
    simp
  | case4 => rfl

theorem b64decode_b64encode {b : Bytes} (hb : Bounded b) :
    b64decode (b64encode b) = .ok b := by
  unfold b64decode
  rw [filter_b64encode hb, b64decodeAux_b64encode hb]

/-! ## UTF-8 round-trip and bounds -/

theorem utf8EncodeChar_bounded {c : Nat} (hc : c < 0x110000) :
    Bounded (utf8EncodeChar c) := by
  intro x hx
  unfold utf8EncodeChar at hx
  split_ifs at hx <;> simp at hx <;> omega

theorem utf8Encode_bounded {p : Str} (hp : ∀ c ∈ p, ValidScalar c) :
    Bounded (utf8Encode p) := by
  intro x hx
  obtain ⟨c, hc, hxc⟩ := List.mem_flatMap.mp hx
  exact utf8EncodeChar_bounded (hp c hc).1 x hxc

theorem utf8DecodeFuel_congr : ∀ (fuel fuel' : Nat) (b : Bytes),
    b.length ≤ fuel → b.length ≤ fuel' →
    utf8DecodeFuel fuel b = utf8DecodeFuel fuel' b := by
  intro fuel
  induction fuel with
  | zero =>
    intro fuel' b h h'
    cases b with
    | nil => cases fuel' <;> rfl
    | cons b0 rest => simp at h
  | succ fuel ih =>
    intro fuel' b h h'
    cases b with
    | nil => cases fuel' <;> rfl
    | cons b0 rest =>
      cases fuel' with
      | zero => simp at h'
      | succ fuel' =>
        have hr : rest.length ≤ fuel := by simp at h; omega
        have hr' : rest.length ≤ fuel' := by simp at h'; omega
        have hd1 : (rest.drop 1).length ≤ fuel := by simp [List.length_drop]; omega
        have hd1' : (rest.drop 1).length ≤ fuel' := by simp [List.length_drop]; omega
        have hd2 : (rest.drop 2).length ≤ fuel := by simp [List.length_drop]; omega
        have hd2' : (rest.drop 2).length ≤ fuel' := by simp [List.length_drop]; omega
        have hd3 : (rest.drop 3).length ≤ fuel := by simp [List.length_drop]; omega
        have hd3' : (rest.drop 3).length ≤ fuel' := by simp [List.length_drop]; omega
        simp only [utf8DecodeFuel]
        split_ifs <;>
          first
          | rfl
          | rw [ih fuel' rest hr hr']
          | rw [ih fuel' (rest.drop 1) hd1 hd1']
          | rw [ih fuel' (rest.drop 2) hd2 hd2']
          | rw [ih fuel' (rest.drop 3) hd3 hd3']

theorem utf8DecodeAux_encodeChar {c : Nat} (hc : ValidScalar c) (bs : Bytes) :
    utf8DecodeAux (utf8EncodeChar c ++ bs) = (utf8DecodeAux bs).map (c :: ·) := by
  obtain ⟨hlt, hsur⟩ := hc
  have hcont1 : isCont (0x80 + c % 64) = true := by simp [isCont]; omega
  have hcont2 : isCont (0x80 + c / 64 % 64) = true := by simp [isCont]; omega
  have hcont3 : isCont (0x80 + c / 4096 % 64) = true := by simp [isCont]; omega
  unfold utf8EncodeChar
  split_ifs with h1 h2 h3
  · -- 1-byte form
    simp only [List.cons_append, List.nil_append, utf8DecodeAux, List.length_cons]
    simp only [utf8DecodeFuel]
    rw [if_pos h1]
  · -- 2-byte form
    simp only [List.cons_append, List.nil_append, utf8DecodeAux, List.length_cons]
    simp only [utf8DecodeFuel, List.getD_cons_zero, List.getD_cons_succ,
      List.length_cons, List.drop_succ_cons, List.drop_zero]
    rw [if_neg (by omega), if_neg (by omega), if_pos (by omega),
        if_pos ⟨by omega, hcont1⟩]
    have e : (0xC0 + c / 64 - 0xC0) * 64 + (0x80 + c % 64 - 0x80) = c := by omega
    rw [e, utf8DecodeFuel_congr (bs.length + 1) bs.length bs (by omega) (Nat.le_refl _)]
  · -- 3-byte form
    simp only [List.cons_append, List.nil_append, utf8DecodeAux, List.length_cons]
    simp only [utf8DecodeFuel, List.getD_cons_zero, List.getD_cons_succ,
      List.length_cons, List.drop_succ_cons, List.drop_zero]
    rw [if_neg (by omega), if_neg (by omega), if_neg (by omega), if_pos (by omega)]
    have e : (0xE0 + c / 4096 - 0xE0) * 4096 + (0x80 + c / 64 % 64 - 0x80) * 64 +
        (0x80 + c % 64 - 0x80) = c := by omega
    rw [if_pos ⟨by omega, hcont2, hcont1, by omega, by rw [e]; exact ⟨hlt, hsur⟩⟩, e,
        utf8DecodeFuel_congr (bs.length + 1 + 1) bs.length bs (by omega) (Nat.le_refl _)]
  · -- 4-byte form
    simp only [List.cons_append, List.nil_append, utf8DecodeAux, List.length_cons]
    simp only [utf8DecodeFuel, List.getD_cons_zero, List.getD_cons_succ,
      List.length_cons, List.drop_succ_cons, List.drop_zero]
    rw [if_neg (by omega), if_neg (by omega), if_neg (by omega), if_neg (by omega),
        if_pos (by omega)]
    have e : (0xF0 + c / 262144 - 0xF0) * 262144 + (0x80 + c / 4096 % 64 - 0x80) * 4096 +
        (0x80 + c / 64 % 64 - 0x80) * 64 + (0x80 + c % 64 - 0x80) = c := by omega
    rw [if_pos ⟨by omega, hcont3, hcont2, hcont1, by omega, by omega⟩, e,
        utf8DecodeFuel_congr (bs.length + 1 + 1 + 1) bs.length bs (by omega) (Nat.le_refl _)]

theorem utf8DecodeAux_utf8Encode {p : Str} (hp : ∀ c ∈ p, ValidScalar c) :
    utf8DecodeAux (utf8Encode p) = some p := by
  induction p with
  | nil => rfl
  | cons c p ih =>
    have : utf8Encode (c :: p) = utf8EncodeChar c ++ utf8Encode p := by
      simp [utf8Encode]
    rw [this, utf8DecodeAux_encodeChar (hp c (by simp)),
        ih (fun d hd => hp d (by simp [hd]))]
    rfl

theorem bytesDecode_utf8Encode {p : Str} (hp : ∀ c ∈ p, ValidScalar c) :
    bytesDecode (utf8Encode p) = .ok p := by
  unfold bytesDecode
  rw [utf8DecodeAux_utf8Encode hp]

theorem strEncode_ok {p : Str} (hp : ∀ c ∈ p, ValidScalar c) :
    strEncode p = .ok (utf8Encode p) := by
  unfold strEncode
  rw [if_pos]
  exact List.all_eq_true.mpr (fun c hc => decide_eq_true (hp c hc))

/-! ## AES/GCM structural lemmas -/

theorem addRoundKey_length (s k : Bytes) : (addRoundKey s k).length = 16 := by
  simp [addRoundKey]

theorem aesEncryptBlock_length (key block : Bytes) :
    (aesEncryptBlock key block).length = 16 := by
  simp [aesEncryptBlock, addRoundKey_length]

theorem bounded_addRoundKey {s k : Bytes} (hs : Bounded s) (hk : Bounded k) :
    Bounded (addRoundKey s k) := by
  intro x hx
  simp only [addRoundKey, List.mem_map, List.mem_range] at hx
  obtain ⟨i, -, rfl⟩ := hx
  exact xor_lt_256 (getD_lt_256 hs i) (getD_lt_256 hk i)

theorem bounded_shiftRows {s : Bytes} (hs : Bounded s) : Bounded (shiftRowsOp s) := by
  intro x hx
  simp only [shiftRowsOp, List.mem_map, List.mem_range] at hx
  obtain ⟨i, -, rfl⟩ := hx
  exact getD_lt_256 hs _

theorem bounded_mixColumns {s : Bytes} (hs : Bounded s) : Bounded (mixColumnsOp s) := by
  intro x hx
  simp only [mixColumnsOp, List.mem_map, List.mem_range] at hx
  obtain ⟨i, -, rfl⟩ := hx
  have h0 := getD_lt_256 hs (4 * (i / 4))
  have h1 := getD_lt_256 hs (4 * (i / 4) + 1)
  have h2 := getD_lt_256 hs (4 * (i / 4) + 2)
  have h3 := getD_lt_256 hs (4 * (i / 4) + 3)
  split_ifs
  · exact xor_lt_256 (xor_lt_256 (xtime_lt _ h0) (gf3_lt _ h1)) (xor_lt_256 h2 h3)
  · exact xor_lt_256 (xor_lt_256 h0 (xtime_lt _ h1)) (xor_lt_256 (gf3_lt _ h2) h3)
  · exact xor_lt_256 (xor_lt_256 h0 h1) (xor_lt_256 (xtime_lt _ h2) (gf3_lt _ h3))
  · exact xor_lt_256 (xor_lt_256 (gf3_lt _ h0) h1) (xor_lt_256 h2 (xtime_lt _ h3))

theorem bounded_getD_word {ws : List Bytes} (h : ∀ w ∈ ws, Bounded w) (i : Nat) :
    Bounded (ws.getD i []) := by
  rcases Nat.lt_or_ge i ws.length with hi | hi
  · rw [List.getD_eq_getElem ws [] hi]; exact h _ (List.getElem_mem hi)
  · rw [List.getD_eq_default ws [] hi]; intro x hx; simp at hx

theorem bounded_subWord (w : Bytes) : Bounded (subWord w) := bounded_subBytes w

theorem rcon_bounded : Bounded rcon := by decide

theorem bounded_rconWord (i : Nat) : Bounded [rcon.getD i 0, 0, 0, 0] := by
  intro x hx
  simp only [List.mem_cons, List.not_mem_nil, or_false] at hx
  rcases hx with rfl | rfl | rfl | rfl
  · exact getD_lt_256 rcon_bounded i
  all_goals omega

theorem bounded_expandWords {key : Bytes} (hk : Bounded key) :
    ∀ j, ∀ w ∈ expandWords key j, Bounded w := by
  intro j
  induction j with
  | zero =>
    intro w hw
    simp only [expandWords, List.mem_map, List.mem_range] at hw
    obtain ⟨i, -, rfl⟩ := hw
    exact bounded_take (bounded_drop hk _) _
  | succ j ih =>
    intro w hw
    simp only [expandWords, List.mem_append, List.mem_singleton] at hw
    rcases hw with hw | rfl
    · exact ih w hw
    · refine bounded_xorBytes (bounded_getD_word ih _) ?_
      split_ifs
      · exact bounded_xorBytes (bounded_subWord _) (bounded_rconWord _)
      · exact bounded_subWord _
      · exact bounded_getD_word ih _

theorem bounded_roundKey {key : Bytes} (hk : Bounded key) (r : Nat) :
    Bounded (roundKey (expandKey key) r) := by
  intro x hx
  simp only [roundKey] at hx
  obtain ⟨w, hw, hxw⟩ := List.mem_flatten.mp hx
  exact bounded_expandWords hk 52 w
    (List.mem_of_mem_drop (List.mem_of_mem_take hw)) x hxw

theorem bounded_aesEncryptBlock {key block : Bytes} (hk : Bounded key) :
    Bounded (aesEncryptBlock key block) := by
  unfold aesEncryptBlock
  exact bounded_addRoundKey (bounded_shiftRows (bounded_subBytes _))
    (bounded_roundKey hk 14)

theorem bounded_be32 (n : Nat) : Bounded (be32 n) := by
  intro x hx
  simp only [be32, List.mem_cons, List.not_mem_nil, or_false] at hx
  rcases hx with rfl | rfl | rfl | rfl <;> omega

theorem bounded_gcmCounter {nonce : Bytes} (hn : Bounded nonce) (i : Nat) :
    Bounded (gcmCounter nonce i) := bounded_append hn (bounded_be32 _)

theorem ksBlocks_length (key nonce : Bytes) :
    ∀ k, (ksBlocks key nonce k).length = 16 * k := by
  intro k
  induction k with
  | zero => rfl
  | succ k ih =>
    simp only [ksBlocks, List.length_append, ih, aesEncryptBlock_length]
    omega

theorem bounded_ksBlocks {key nonce : Bytes} (hk : Bounded key) :
    ∀ k, Bounded (ksBlocks key nonce k) := by
  intro k
  induction k with
  | zero => intro x hx; simp [ksBlocks] at hx
  | succ k ih =>
    exact bounded_append ih (bounded_aesEncryptBlock hk)

theorem gcmKeystream_length (key nonce : Bytes) (n : Nat) :
    (gcmKeystream key nonce n).length = n := by
  simp only [gcmKeystream, List.length_take, ksBlocks_length]
  omega

theorem bounded_gcmKeystream {key nonce : Bytes} (hk : Bounded key) (n : Nat) :
    Bounded (gcmKeystream key nonce n) :=
  bounded_take (bounded_ksBlocks hk _) _

theorem natToBlock_length (n : Nat) : (natToBlock n).length = 16 := by
  simp [natToBlock]

theorem bounded_natToBlock (n : Nat) : Bounded (natToBlock n) := by
  intro x hx
  simp only [natToBlock, List.mem_map, List.mem_range] at hx
  obtain ⟨i, -, rfl⟩ := hx
  omega

theorem xorBytes_length (a b : Bytes) :
    (xorBytes a b).length = min a.length b.length := by
  simp [xorBytes]

theorem gcmTag_length (key nonce ct : Bytes) : (gcmTag key nonce ct).length = 16 := by
  simp [gcmTag, xorBytes_length, aesEncryptBlock_length, natToBlock_length]

theorem bounded_gcmTag {key nonce : Bytes} (hk : Bounded key) (ct : Bytes) :
    Bounded (gcmTag key nonce ct) := by
  unfold gcmTag
  exact bounded_xorBytes (bounded_aesEncryptBlock hk) (bounded_natToBlock _)

theorem aesgcmEncrypt_length (key nonce pt : Bytes) :
    (aesgcmEncrypt key nonce pt).length = pt.length + 16 := by
  simp [aesgcmEncrypt, xorBytes_length, gcmKeystream_length, gcmTag_length]

theorem bounded_aesgcmEncrypt {key nonce pt : Bytes} (hk : Bounded key)
    (hpt : Bounded pt) : Bounded (aesgcmEncrypt key nonce pt) := by
  unfold aesgcmEncrypt
  exact bounded_append
    (bounded_xorBytes hpt (bounded_gcmKeystream hk _))
    (bounded_gcmTag hk _)

theorem xorBytes_cancel : ∀ {pt ks : Bytes}, pt.length ≤ ks.length →
    xorBytes (xorBytes pt ks) ks = pt := by
  intro pt
  induction pt with
  | nil => intro ks h; rfl
  | cons x pt ih =>
    intro ks h
    cases ks with
    | nil => simp at h
    | cons y ks =>
      simp only [xorBytes, List.zipWith_cons_cons, List.cons.injEq]
      exact ⟨Nat.xor_cancel_right y x, ih (by simpa using h)⟩

theorem aesgcmDecrypt_append {key nonce ct tag : Bytes} (htag : tag.length = 16)
    (hcheck : gcmTag key nonce ct = tag) :
    aesgcmDecrypt key nonce (ct ++ tag) =
      .ok (xorBytes ct (gcmKeystream key nonce ct.length)) := by
  unfold aesgcmDecrypt
  have hlen : (ct ++ tag).length = ct.length + 16 := by simp [htag]
  rw [if_neg (by omega)]
  have hsub : (ct ++ tag).length - 16 = ct.length := by omega
  rw [hsub, List.take_left, List.drop_left, if_pos hcheck]

/-- AEAD round-trip at the byte level: decryption of an encryption is
the plaintext, for every key, nonce, and plaintext. -/
theorem aesgcm_roundtrip (key nonce pt : Bytes) :
    aesgcmDecrypt key nonce (aesgcmEncrypt key nonce pt) = .ok pt := by
  have hks : (gcmKeystream key nonce pt.length).length = pt.length :=
    gcmKeystream_length key nonce pt.length
  have hct : (xorBytes pt (gcmKeystream key nonce pt.length)).length = pt.length := by
    rw [xorBytes_length, hks, Nat.min_self]
  rw [show aesgcmEncrypt key nonce pt =
        xorBytes pt (gcmKeystream key nonce pt.length) ++
          gcmTag key nonce (xorBytes pt (gcmKeystream key nonce pt.length)) from rfl,
      aesgcmDecrypt_append (gcmTag_length key nonce _) rfl, hct,
      xorBytes_cancel (by omega)]

/-! ## Codec-level lemmas -/

theorem aesgcmKeyOk_of_32 {key : Bytes} (h : key.length = 32) :
    aesgcmKeyOk key = true := by
  simp [aesgcmKeyOk, h]

/-- `_encrypt`'s codec core, evaluated: under a 32-byte key and with
UTF-8-encodable plaintext, `seal` is exactly the standard base64 of
`nonce ‖ AESGCM(key).encrypt(nonce, utf8(p))`. -/
theorem encryptCore_ok {key nonce : Bytes} {p : Str} (hk32 : key.length = 32)
    (hp : ∀ c ∈ p, ValidScalar c) :
    encryptCore key nonce p =
      .ok (b64encode (nonce ++ aesgcmEncrypt key nonce (utf8Encode p))) := by
  simp only [encryptCore, aesgcmKeyOk_of_32 hk32, if_true, strEncode_ok hp]
  rfl

theorem decryptCore_encryptCore {key nonce : Bytes} {p : Str}
    (hk32 : key.length = 32) (hkB : Bounded key)
    (hn12 : nonce.length = 12) (hnB : Bounded nonce)
    (hp : ∀ c ∈ p, ValidScalar c) :
    decryptCore key (b64encode (nonce ++ aesgcmEncrypt key nonce (utf8Encode p))) =
      .ok p := by
  have henvB : Bounded (nonce ++ aesgcmEncrypt key nonce (utf8Encode p)) :=
    bounded_append hnB (bounded_aesgcmEncrypt hkB (utf8Encode_bounded hp))
  have ht : (nonce ++ aesgcmEncrypt key nonce (utf8Encode p)).take 12 = nonce := by
    rw [← hn12, List.take_left]
  have hd : (nonce ++ aesgcmEncrypt key nonce (utf8Encode p)).drop 12 =
      aesgcmEncrypt key nonce (utf8Encode p) := by
    rw [← hn12, List.drop_left]
  simp only [decryptCore, b64decode_b64encode henvB, aesgcmKeyOk_of_32 hk32, if_true,
    Bind.bind, Except.bind, ht, hd, aesgcm_roundtrip, bytesDecode_utf8Encode hp]

/-! ## Key-resolution lemmas -/

theorem _encryption_key_explicit {env : Env} {e : Str} (fs : Fs) (rand : Bytes)
    (he : env.encryptionKey = some e) (hne : pyStrip e ≠ []) :
    _encryption_key env fs rand = (fromhex (pyStrip e), fs, []) := by
  unfold _encryption_key
  rw [he]
  simp only [Option.getD_some]
  rw [if_pos hne]

theorem _encryption_key_file {env : Env} {fs : Fs} {c : Str} (rand : Bytes)
    (he : pyStrip (env.encryptionKey.getD []) = []) (hf : fs.keyFile = some c) :
    _encryption_key env fs rand = (fromhex (pyStrip c), fs, [.keyFileRead]) := by
  unfold _encryption_key
  rw [he, if_neg (by simp), hf]

theorem _encryption_key_generate {env : Env} {fs : Fs} (rand : Bytes)
    (he : pyStrip (env.encryptionKey.getD []) = []) (hf : fs.keyFile = none) :
    _encryption_key env fs rand =
      (fromhex (bytesHex rand), { keyFile := some (bytesHex rand) }, [.keyFileWrite]) := by
  unfold _encryption_key
  rw [he, if_neg (by simp), hf]

theorem _encryption_key_fs_preserved {env : Env} {fs : Fs} {c : Str}
    (hf : fs.keyFile = some c) (rand : Bytes) :
    (_encryption_key env fs rand).2.1 = fs := by
  unfold _encryption_key
  dsimp only
  split_ifs
  · rfl
  · rw [hf]

theorem _encryption_key_no_network (env : Env) (fs : Fs) (rand : Bytes) :
    Event.networkCall ∉ (_encryption_key env fs rand).2.2 := by
  unfold _encryption_key
  dsimp only
  split_ifs
  · simp
  · cases hf : fs.keyFile <;> simp

/-- C5: with an explicit key present and non-empty after trimming, key
resolution returns its hex decoding and performs no file I/O at all
(the result and the file-system state are independent of the KeyFile
content); the KeyFile is consulted only when no explicit key is
supplied. -/
theorem C5_explicit_key_precedence (e : Str) (fs : Fs) (rand : Bytes)
    (apiKey : Option Str) (hne : pyStrip e ≠ []) :
    _encryption_key { encryptionKey := some e, apiKey := apiKey } fs rand =
      (fromhex (pyStrip e), fs, []) :=
  _encryption_key_explicit fs rand rfl hne

/-- C5 witness: explicit key `"aabb"` wins over a populated KeyFile
`"cccc"`, decoding to the bytes `aa bb`. -/
theorem C5_explicit_key_precedence_witness :
    _encryption_key { encryptionKey := some [97, 97, 98, 98], apiKey := none }
        { keyFile := some [99, 99, 99, 99] } [1, 2] =
      (.ok [0xaa, 0xbb], { keyFile := some [99, 99, 99, 99] }, []) := by
  rw [C5_explicit_key_precedence [97, 97, 98, 98] _ _ _ (by decide)]
  rfl

/-- C4 counterexample: the explicit key `"aabb"` is valid hex of the
wrong length (4 characters, not 64); the claim says resolution must
fail with a configuration error, but the code accepts it and returns
the two bytes `aa bb`. -/
theorem C4_counterexample :
    (_encryption_key { encryptionKey := some [97, 97, 98, 98], apiKey := none }
        { keyFile := none } []).1 = .ok [0xaa, 0xbb] := rfl

/-- C4 amended: resolution fails exactly when the key material it
selects (the trimmed explicit key if non-empty, else the trimmed
KeyFile content if the file exists) is not parseable hex — an invalid
character or an odd number of hex digits; a valid-hex string of the
wrong length is accepted at resolution, and auto-generation from
32 random bytes never fails and returns exactly those bytes. -/
theorem C4_amended (env : Env) (fs : Fs) (rand : Bytes) (hrand : Bounded rand) :
    (∀ e, env.encryptionKey = some e → pyStrip e ≠ [] →
      ((_encryption_key env fs rand).1 = .error .valueError ↔
        fromhexAux (pyStrip e) = none)) ∧
    (pyStrip (env.encryptionKey.getD []) = [] → ∀ c, fs.keyFile = some c →
      ((_encryption_key env fs rand).1 = .error .valueError ↔
        fromhexAux (pyStrip c) = none)) ∧
    (pyStrip (env.encryptionKey.getD []) = [] → fs.keyFile = none →
      (_encryption_key env fs rand).1 = .ok rand) := by
  refine ⟨?_, ?_, ?_⟩
  · intro e he hne
    rw [_encryption_key_explicit fs rand he hne]
    unfold fromhex
    cases h : fromhexAux (pyStrip e) <;> simp [h]
  · intro he c hc
    rw [_encryption_key_file rand he hc]
    unfold fromhex
    cases h : fromhexAux (pyStrip c) <;> simp [h]
  · intro he hf
    rw [_encryption_key_generate rand he hf]
    simp [fromhex_bytesHex hrand]

/-- C4 amended witness: at a malformed odd-length explicit key `"abc"`
the resolution fails with `ValueError`; with no key configured at all,
generation returns the 32 random bytes. -/
theorem C4_amended_witness :
    (_encryption_key { encryptionKey := some [97, 98, 99], apiKey := none }
        { keyFile := none } (List.replicate 32 7)).1 = .error .valueError ∧
    (_encryption_key { encryptionKey := none, apiKey := none }
        { keyFile := none } (List.replicate 32 7)).1 = .ok (List.replicate 32 7) := by
  constructor
  · exact ((C4_amended { encryptionKey := some [97, 98, 99], apiKey := none }
      { keyFile := none } (List.replicate 32 7) (by decide)).1
        [97, 98, 99] rfl (by decide)).mpr (by decide)
  · exact (C4_amended { encryptionKey := none, apiKey := none }
      { keyFile := none } (List.replicate 32 7) (by decide)).2.2 (by decide) rfl

/-- C6: starting with no explicit key and no KeyFile, two successive
resolutions create exactly one KeyFile (one write, then one read) and
both return the same key — the 32 bytes generated by the first call. -/
theorem C6_persist_idempotent (env : Env) (fs : Fs) (r1 r2 : Bytes)
    (henv : pyStrip (env.encryptionKey.getD []) = [])
    (hfile : fs.keyFile = none) (hr1 : Bounded r1) :
    _encryption_key env fs r1 =
      (.ok r1, { keyFile := some (bytesHex r1) }, [.keyFileWrite]) ∧
    _encryption_key env { keyFile := some (bytesHex r1) } r2 =
      (.ok r1, { keyFile := some (bytesHex r1) }, [.keyFileRead]) := by
  constructor
  · rw [_encryption_key_generate r1 henv hfile, fromhex_bytesHex hr1]
  · rw [_encryption_key_file r2 henv rfl, pyStrip_bytesHex, fromhex_bytesHex hr1]

/-- C6 witness: with all-sevens random bytes, both calls observe the
same key and only the first writes the file. -/
theorem C6_persist_idempotent_witness :
    _encryption_key { encryptionKey := none, apiKey := none } { keyFile := none }
        (List.replicate 32 7) =
      (.ok (List.replicate 32 7),
        { keyFile := some (bytesHex (List.replicate 32 7)) }, [.keyFileWrite]) ∧
    _encryption_key { encryptionKey := none, apiKey := none }
        { keyFile := some (bytesHex (List.replicate 32 7)) } [] =
      (.ok (List.replicate 32 7),
        { keyFile := some (bytesHex (List.replicate 32 7)) }, [.keyFileRead]) :=
  C6_persist_idempotent { encryptionKey := none, apiKey := none } { keyFile := none }
    (List.replicate 32 7) [] (by decide) rfl (by decide)

/-! ## Command-level file-system lemmas -/

theorem _encrypt_fs (env : Env) (fs : Fs) (rk nonce : Bytes) (p : Str) :
    (_encrypt env fs rk nonce p).2.1 = (_encryption_key env fs rk).2.1 := by
  unfold _encrypt
  rcases h : _encryption_key env fs rk with ⟨r, fs', ev⟩
  cases r <;> simp

theorem _decrypt_fs (env : Env) (fs : Fs) (rk : Bytes) (e : Str) :
    (_decrypt env fs rk e).2.1 = (_encryption_key env fs rk).2.1 := by
  unfold _decrypt
  rcases h : _encryption_key env fs rk with ⟨r, fs', ev⟩
  cases r <;> simp

theorem cmd_save_fs (env : Env) (fs : Fs) (rk nonce : Bytes) (p : Str) :
    (cmd_save env fs rk nonce p).2.1 = (_encrypt env fs rk nonce p).2.1 := by
  unfold cmd_save
  rcases h : _encrypt env fs rk nonce p with ⟨r, fs', ev⟩
  cases r with
  | error e => simp
  | ok payload => cases _headers env <;> simp

theorem cmd_load_fs (env : Env) (fs : Fs) (rk : Bytes) (resp : Response)
    {c : Str} (hf : fs.keyFile = some c) :
    (cmd_load env fs rk resp).2.1 = fs := by
  unfold cmd_load
  cases _headers env with
  | none => simp
  | some k =>
    simp only
    split_ifs
    · rfl
    · rfl
    · rcases h : _decrypt env fs rk resp.content with ⟨r, fs', ev⟩
      have hfs' : fs' = fs := by
        have h2 := _decrypt_fs env fs rk resp.content
        rw [h, _encryption_key_fs_preserved hf rk] at h2
        exact h2
      cases r <;> simp [hfs']

/-- C7: once the KeyFile exists with content `c`, every operation —
key resolution itself, `keygen`, `save`, `load` (under any service
response), and `usage` — leaves it existing with content `c`; it is
never overwritten. -/
theorem C7_keyfile_never_overwritten (env : Env) (fs : Fs) (c : Str)
    (hf : fs.keyFile = some c) :
    (∀ rand, (_encryption_key env fs rand).2.1.keyFile = some c) ∧
    (∀ rand, (cmd_keygen env fs rand).2.1.keyFile = some c) ∧
    (∀ rk nonce content, (cmd_save env fs rk nonce content).2.1.keyFile = some c) ∧
    (∀ rk resp, (cmd_load env fs rk resp).2.1.keyFile = some c) ∧
    (cmd_usage env fs).2.1.keyFile = some c := by
  have hkey : ∀ rand, (_encryption_key env fs rand).2.1.keyFile = some c := by
    intro rand
    rw [_encryption_key_fs_preserved hf rand, hf]
  refine ⟨hkey, hkey, ?_, ?_, ?_⟩
  · intro rk nonce content
    rw [cmd_save_fs, _encrypt_fs, _encryption_key_fs_preserved hf rk, hf]
  · intro rk resp
    rw [cmd_load_fs env fs rk resp hf, hf]
  · unfold cmd_usage
    cases _headers env <;> simp [hf]

/-- C7 witness: with the KeyFile holding `"cc"`, a `usage` call and a
key resolution both leave it intact. -/
theorem C7_keyfile_never_overwritten_witness :
    (_encryption_key { encryptionKey := none, apiKey := none }
        { keyFile := some [99, 99] } [1]).2.1.keyFile = some [99, 99] ∧
    (cmd_usage { encryptionKey := none, apiKey := none }
        { keyFile := some [99, 99] }).2.1.keyFile = some [99, 99] := by
  have h := C7_keyfile_never_overwritten { encryptionKey := none, apiKey := none }
    { keyFile := some [99, 99] } [99, 99] rfl
  exact ⟨h.1 [1], h.2.2.2.2⟩

/-! ## Credential-check ordering (C3) and the load contract (C9) -/

theorem _headers_none {env : Env} (h : env.apiKey.getD [] = []) :
    _headers env = none := by
  unfold _headers
  rw [if_pos h]

theorem _headers_some {env : Env} (h : env.apiKey.getD [] ≠ []) :
    _headers env = some (env.apiKey.getD []) := by
  unfold _headers
  rw [if_neg h]

/-- C3 counterexample: with no bearer credential and no key configured,
`save` nevertheless generates and writes the KeyFile — only afterwards
does the credential check abort the run. The claim that the failure is
"reported before any I/O … before any KeyFile read, key generation, or
KeyFile write" is false for `save`. -/
theorem C3_counterexample :
    cmd_save { encryptionKey := none, apiKey := none } { keyFile := none }
        (List.replicate 32 0) (List.replicate 12 0) [104, 105] =
      (.configExit, { keyFile := some (bytesHex (List.replicate 32 0)) },
        [.keyFileWrite]) := by
  rfl

/-- C3 amended: when the bearer credential is absent or empty, none of
the three operations issues a network call, and `load` and `usage`
abort before any I/O at all; `save`, however, first performs key
resolution and encryption (possibly reading or creating the KeyFile)
and only then aborts — with the configuration error, or earlier with
the exception raised during encryption. -/
theorem C3_credential_check (env : Env) (fs : Fs)
    (hapi : env.apiKey.getD [] = []) :
    (∀ rk nonce content, Event.networkCall ∉ (cmd_save env fs rk nonce content).2.2 ∧
      ((cmd_save env fs rk nonce content).1 = .configExit ∨
        ∃ err, (cmd_save env fs rk nonce content).1 = .raised err)) ∧
    (∀ rk resp, cmd_load env fs rk resp = (.configExit, fs, [])) ∧
    cmd_usage env fs = (.configExit, fs, []) := by
  refine ⟨?_, ?_, ?_⟩
  · intro rk nonce content
    unfold cmd_save
    rcases h : _encrypt env fs rk nonce content with ⟨r, fs', ev⟩
    have hev : Event.networkCall ∉ ev := by
      have h2 : (_encrypt env fs rk nonce content).2.2 = (_encryption_key env fs rk).2.2 := by
        unfold _encrypt
        rcases _encryption_key env fs rk with ⟨r', fs'', ev'⟩
        cases r' <;> simp
      rw [h] at h2
      simp only at h2
      rw [h2]
      exact _encryption_key_no_network env fs rk
    cases r with
    | error e => exact ⟨hev, Or.inr ⟨e, rfl⟩⟩
    | ok payload =>
      rw [_headers_none hapi]
      exact ⟨hev, Or.inl rfl⟩
  · intro rk resp
    unfold cmd_load
    rw [_headers_none hapi]
  · unfold cmd_usage
    rw [_headers_none hapi]

/-- C3 amended witness: with an empty credential, a `usage` call and a
`load` exit with the configuration error before any I/O, and a `save`
(with a valid explicit key) performs no network call and exits with
the configuration error. -/
theorem C3_credential_check_witness :
    cmd_usage { encryptionKey := none, apiKey := some [] } { keyFile := none } =
      (.configExit, { keyFile := none }, []) ∧
    cmd_load { encryptionKey := none, apiKey := some [] } { keyFile := none } [7]
        { status := 200, content := [] } =
      (.configExit, { keyFile := none }, []) ∧
    Event.networkCall ∉
      (cmd_save { encryptionKey := none, apiKey := some [] } { keyFile := none }
        (List.replicate 32 0) (List.replicate 12 0) [104]).2.2 := by
  have h := C3_credential_check { encryptionKey := none, apiKey := some [] }
    { keyFile := none } (by decide)
  exact ⟨h.2.2, h.2.1 [7] { status := 200, content := [] },
    (h.1 (List.replicate 32 0) (List.replicate 12 0) [104]).1⟩

/-- C9: with a credential present, a load whose response is HTTP 404
reports not-found and stops after the single request (exit via
`sys.exit(1)`, no plaintext produced, no retry — the trace holds
exactly one network call); for a successful (sub-400) response, load
runs the decrypt codec on the returned content and yields its result:
the decrypted plaintext, or the raised exception. -/
theorem C9_load_contract (env : Env) (fs : Fs) (rk : Bytes) (resp : Response)
    (hapi : env.apiKey.getD [] ≠ []) :
    (resp.status = 404 →
      cmd_load env fs rk resp = (.notFound, fs, [.networkCall])) ∧
    (resp.status < 400 → ∀ key fs' ev,
      _encryption_key env fs rk = (.ok key, fs', ev) →
      cmd_load env fs rk resp =
        ((match decryptCore key resp.content with
          | .ok pt => LoadResult.output pt
          | .error e => LoadResult.raised e), fs', .networkCall :: ev)) := by
  constructor
  · intro h404
    unfold cmd_load
    rw [_headers_some hapi]
    simp [h404]
  · intro hok key fs' ev hkey
    unfold cmd_load
    rw [_headers_some hapi]
    simp only
    rw [if_neg (by omega), if_neg (by simp [respOk]; omega)]
    unfold _decrypt
    rw [hkey]
    simp only
    cases decryptCore key resp.content <;> simp

/-- C9 witness: a 404 response yields the not-found exit with exactly
one network call; a 200 response hands the returned content to the
decrypt codec and surfaces its outcome (here: the `ValueError` raised
for the one-byte explicit key `"aa"`). -/
theorem C9_load_contract_witness :
    cmd_load { encryptionKey := none, apiKey := some [107] } { keyFile := none } []
        { status := 404, content := [] } =
      (.notFound, { keyFile := none }, [.networkCall]) ∧
    cmd_load { encryptionKey := some [97, 97], apiKey := some [107] }
        { keyFile := none } [] { status := 200, content := [] } =
      (.raised .valueError, { keyFile := none }, [.networkCall]) := by
  constructor
  · exact (C9_load_contract { encryptionKey := none, apiKey := some [107] }
      { keyFile := none } [] { status := 404, content := [] } (by decide)).1 rfl
  · have h := (C9_load_contract { encryptionKey := some [97, 97], apiKey := some [107] }
      { keyFile := none } [] { status := 200, content := [] } (by decide)).2
      (by decide) [0xaa] { keyFile := none } [] rfl
    rw [h]
    rfl

/-! ## The envelope codec claims (C1, C2, C8, C10) -/

set_option maxRecDepth 100000 in
/-- C1 counterexample: the concrete input `base64(28 zero bytes)` is a
well-formed envelope shape whose AEAD authentication fails under the
all-zero 256-bit key, and `_decrypt` raises `InvalidTag` — it does not
return the input unchanged as the claim demands. -/
theorem C1_counterexample :
    decryptCore (List.replicate 32 0) (b64encode (List.replicate 28 0)) =
        .error .invalidTag ∧
    decryptCore (List.replicate 32 0) (b64encode (List.replicate 28 0)) ≠
        .ok (b64encode (List.replicate 28 0)) := by
  have h : decryptCore (List.replicate 32 0) (b64encode (List.replicate 28 0)) =
      .error .invalidTag := rfl
  refine ⟨h, ?_⟩
  rw [h]
  intro hh
  exact Except.noConfusion hh

/-- C1 amended: on any failure at the decrypt boundary the exception
propagates to the caller — there is no plaintext fallback. Concretely:
if the base64 layer rejects the input, `_decrypt` raises that error;
if the input decodes but its AEAD authentication fails (too short for
a tag, or tag mismatch), `_decrypt` raises `InvalidTag`. In neither
case are incorrect decrypted bytes returned. -/
theorem C1_authfail_raises (key : Bytes) (e : Str) (hk : key.length = 32) :
    (∀ err, b64decode e = .error err → decryptCore key e = .error err) ∧
    (∀ data, b64decode e = .ok data →
      ((data.drop 12).length < 16 ∨
        gcmTag key (data.take 12)
            ((data.drop 12).take ((data.drop 12).length - 16)) ≠
          (data.drop 12).drop ((data.drop 12).length - 16)) →
      decryptCore key e = .error .invalidTag) := by
  constructor
  · intro err herr
    simp only [decryptCore, herr, Bind.bind, Except.bind]
  · intro data hdata hfail
    simp only [decryptCore, hdata, Bind.bind, Except.bind, aesgcmKeyOk_of_32 hk,
      if_true]
    unfold aesgcmDecrypt
    rcases hfail with hshort | hmismatch
    · rw [if_pos hshort]
    · by_cases hshort : (data.drop 12).length < 16
      · rw [if_pos hshort]
      · rw [if_neg hshort, if_neg hmismatch]

set_option maxRecDepth 100000 in
/-- C1 amended witness: the input `"A"` (one stray base64 character)
raises the base64 error, and `base64(28 zero bytes)` raises
`InvalidTag` under the all-zero key. -/
theorem C1_authfail_raises_witness :
    decryptCore (List.replicate 32 0) [65] = .error .binasciiError ∧
    decryptCore (List.replicate 32 0) (b64encode (List.replicate 28 0)) =
      .error .invalidTag := by
  constructor
  · exact (C1_authfail_raises (List.replicate 32 0) [65] (by decide)).1
      .binasciiError rfl
  · exact (C1_authfail_raises (List.replicate 32 0) (b64encode (List.replicate 28 0))
      (by decide)).2 (List.replicate 28 0)
      (b64decode_b64encode (by decide)) (Or.inr (by decide))

/-- C2: the codec round-trip — decrypting the result of encrypting any
UTF-8-encodable plaintext under any 256-bit key (with the fresh
12-byte nonce `os.urandom` produced) yields the plaintext again. -/
theorem C2_roundtrip {key nonce : Bytes} {p e : Str}
    (hk32 : key.length = 32) (hkB : Bounded key)
    (hn12 : nonce.length = 12) (hnB : Bounded nonce)
    (hp : ∀ c ∈ p, ValidScalar c)
    (henc : encryptCore key nonce p = .ok e) :
    decryptCore key e = .ok p := by
  rw [encryptCore_ok hk32 hp] at henc
  cases henc
  exact decryptCore_encryptCore hk32 hkB hn12 hnB hp

/-- C2 witness: the round-trip at the all-zero key and nonce on the
plaintext `"hi"`. -/
theorem C2_roundtrip_witness :
    decryptCore (List.replicate 32 0)
        (b64encode (List.replicate 12 0 ++
          aesgcmEncrypt (List.replicate 32 0) (List.replicate 12 0)
            (utf8Encode [104, 105]))) =
      .ok [104, 105] :=
  C2_roundtrip (by decide) (by decide) (by decide) (by decide) (by decide)
    (encryptCore_ok (by decide) (by decide))

/-- C8: `seal` returns exactly the standard padded base64 encoding of
`nonce ‖ AESGCM ciphertext-with-tag`: decoding the envelope with the
standard base64 decoder recovers a byte string whose first 12 bytes
are the nonce, whose remainder is the ciphertext-with-tag (itself 16
bytes longer than the UTF-8 plaintext), and whose total length is the
encoded-plaintext length plus 28. -/
theorem C8_envelope_layout {key nonce : Bytes} {p e : Str}
    (hk32 : key.length = 32) (hkB : Bounded key)
    (hn12 : nonce.length = 12) (hnB : Bounded nonce)
    (hp : ∀ c ∈ p, ValidScalar c)
    (henc : encryptCore key nonce p = .ok e) :
    e = b64encode (nonce ++ aesgcmEncrypt key nonce (utf8Encode p)) ∧
    b64decode e = .ok (nonce ++ aesgcmEncrypt key nonce (utf8Encode p)) ∧
    (nonce ++ aesgcmEncrypt key nonce (utf8Encode p)).take 12 = nonce ∧
    (nonce ++ aesgcmEncrypt key nonce (utf8Encode p)).drop 12 =
      aesgcmEncrypt key nonce (utf8Encode p) ∧
    (aesgcmEncrypt key nonce (utf8Encode p)).length = (utf8Encode p).length + 16 ∧
    (nonce ++ aesgcmEncrypt key nonce (utf8Encode p)).length =
      (utf8Encode p).length + 28 := by
  rw [encryptCore_ok hk32 hp] at henc
  cases henc
  have hB : Bounded (nonce ++ aesgcmEncrypt key nonce (utf8Encode p)) :=
    bounded_append hnB (bounded_aesgcmEncrypt hkB (utf8Encode_bounded hp))
  refine ⟨rfl, b64decode_b64encode hB, ?_, ?_, aesgcmEncrypt_length key nonce _, ?_⟩
  · rw [← hn12, List.take_left]
  · rw [← hn12, List.drop_left]
  · simp [List.length_append, hn12, aesgcmEncrypt_length]
    omega

/-- C8 witness: the envelope for `"hi"` under the all-zero key and
nonce decodes to a 30-byte string (2-byte plaintext plus 28) whose
first 12 bytes are the nonce. -/
theorem C8_envelope_layout_witness :
    b64decode (b64encode (List.replicate 12 0 ++
        aesgcmEncrypt (List.replicate 32 0) (List.replicate 12 0)
          (utf8Encode [104, 105]))) =
      .ok (List.replicate 12 0 ++
        aesgcmEncrypt (List.replicate 32 0) (List.replicate 12 0)
          (utf8Encode [104, 105])) ∧
    (List.replicate 12 0 ++
        aesgcmEncrypt (List.replicate 32 0) (List.replicate 12 0)
          (utf8Encode [104, 105])).length = (utf8Encode [104, 105]).length + 28 := by
  have h := @C8_envelope_layout (List.replicate 32 0) (List.replicate 12 0)
    [104, 105]
    (b64encode (List.replicate 12 0 ++
      aesgcmEncrypt (List.replicate 32 0) (List.replicate 12 0)
        (utf8Encode [104, 105])))
    (by decide) (by decide) (by decide) (by decide) (by decide)
    (encryptCore_ok (by decide) (by decide))
  exact ⟨h.2.1, h.2.2.2.2.2⟩

set_option maxRecDepth 100000 in
/-- C10: the codec operates on Unicode text: `seal` UTF-8-encodes its
input before encrypting (first conjunct), and `open` UTF-8-decodes the
authenticated plaintext — so an envelope whose correctly authenticated
payload is the non-UTF-8 byte `0x80` makes `open` raise a decode
error rather than return the bytes (second conjunct); the round-trip
guarantee therefore covers exactly the UTF-8-encodable plaintexts. -/
theorem C10_text_codec :
    (∀ (key nonce : Bytes) (p : Str), key.length = 32 → (∀ c ∈ p, ValidScalar c) →
      encryptCore key nonce p =
        .ok (b64encode (nonce ++ aesgcmEncrypt key nonce (utf8Encode p)))) ∧
    decryptCore (List.replicate 32 0)
        (b64encode (List.replicate 12 0 ++
          aesgcmEncrypt (List.replicate 32 0) (List.replicate 12 0) [0x80])) =
      .error .unicodeDecodeError := by
  constructor
  · intro key nonce p hk hp
    exact encryptCore_ok hk hp
  · have hB : Bounded (List.replicate 12 0 ++
        aesgcmEncrypt (List.replicate 32 0) (List.replicate 12 0) [0x80]) :=
      bounded_append (by decide)
        (bounded_aesgcmEncrypt (by decide) (by decide))
    have ht : (List.replicate 12 0 ++
        aesgcmEncrypt (List.replicate 32 0) (List.replicate 12 0) [0x80]).take 12 =
        List.replicate 12 0 := List.take_left' (by decide)
    have hd : (List.replicate 12 0 ++
        aesgcmEncrypt (List.replicate 32 0) (List.replicate 12 0) [0x80]).drop 12 =
        aesgcmEncrypt (List.replicate 32 0) (List.replicate 12 0) [0x80] :=
      List.drop_left' (by decide)
    simp only [decryptCore, b64decode_b64encode hB, Bind.bind, Except.bind,
      @aesgcmKeyOk_of_32 (List.replicate 32 0) (by decide), if_true, ht, hd,
      aesgcm_roundtrip]
    rfl

/-- C10 witness: sealing `"h"` under the all-zero key and nonce indeed
produces the base64 of nonce plus the AEAD encryption of its UTF-8
bytes. -/
theorem C10_text_codec_witness :
    encryptCore (List.replicate 32 0) (List.replicate 12 0) [104] =
      .ok (b64encode (List.replicate 12 0 ++
        aesgcmEncrypt (List.replicate 32 0) (List.replicate 12 0)
          (utf8Encode [104]))) :=
  C10_text_codec.1 (List.replicate 32 0) (List.replicate 12 0) [104]
    (by decide) (by decide)

end Jackal
